import Mathlib

/-!
Verification of the remote-jobs aggregation scripts (`remote_jobs.py`,
`indeed_imap.py`).  The Python sources are shallowly embedded: pure string
manipulation becomes functions over `String` / `List Char`, the JSON values
handled by the RemoteOK adapter become an inductive type, Python dicts become
association lists, the persisted ledger becomes a `Finset String`, and the
code paths that can raise a Python exception return `Except`.
-/

set_option autoImplicit false

/-! ## Python string primitives -/

/-- ASCII upper/lower case pairs, used to model Python `str.lower()`
(all strings appearing in the configured keyword matching are ASCII). -/
def asciiUpperLower : List (Char × Char) :=
  [('A','a'),('B','b'),('C','c'),('D','d'),('E','e'),('F','f'),('G','g'),
   ('H','h'),('I','i'),('J','j'),('K','k'),('L','l'),('M','m'),('N','n'),
   ('O','o'),('P','p'),('Q','q'),('R','r'),('S','s'),('T','t'),('U','u'),
   ('V','v'),('W','w'),('X','x'),('Y','y'),('Z','z')]

/-- Lower-case one character, as Python `str.lower()` does on ASCII. -/
def lowerChar (c : Char) : Char :=
  match asciiUpperLower.find? (fun p => p.1 == c) with
  | some p => p.2
  | none => c

/-- Model of Python `s.lower()`. -/
def pyLower (s : String) : String :=
  String.mk (s.data.map lowerChar)

/-- `needle` occurs as a contiguous sublist of `hay`
(Python `needle in hay` on strings, character-list form). -/
def listSubOf (needle hay : List Char) : Bool :=
  hay.tails.any (fun t => needle.isPrefixOf t)

/-- Python `needle in hay` for strings. -/
def inStr (needle hay : String) : Bool :=
  listSubOf needle.data hay.data

theorem lowerChar_idem (c : Char) : lowerChar (lowerChar c) = lowerChar c := by
  have key : ∀ p ∈ asciiUpperLower,
      asciiUpperLower.find? (fun q => q.1 == p.2) = none := by decide
  cases h : asciiUpperLower.find? (fun p => p.1 == c) with
  | none => simp [lowerChar, h]
  | some p =>
      have hp : p ∈ asciiUpperLower := List.mem_of_find?_eq_some h
      simp [lowerChar, h, key p hp]

theorem pyLower_idem (s : String) : pyLower (pyLower s) = pyLower s := by
  unfold pyLower
  simp [List.map_map, Function.comp_def, lowerChar_idem]

/-! ## Filter policy (`remote_jobs.py`, lines 33-60)

The keyword configuration is read from the environment at process start; the
embedding passes the two keyword lists explicitly. -/

/-- Default include keywords (`SEARCH_KEYWORDS` fallback, line 39). -/
def SEARCH_KEYWORDS_default : List String := ["developer", "engineer"]

/-- The fixed exclusion list (`EXCLUDE_CHINA_KEYWORDS`, lines 41-44). -/
def EXCLUDE_CHINA_KEYWORDS : List String :=
  ["china", "beijing", "shanghai", "shenzhen", "guangzhou", "prc", "cn", "hong kong"]

/-- `text_contains_any(text, keywords)` (line 50). -/
def text_contains_any (text : String) (keywords : List String) : Bool :=
  keywords.any (fun k => inStr k (pyLower text))

/-- `job_matches_keywords(title, desc)` (line 53); `search` models the
module-level `SEARCH_KEYWORDS`. -/
def job_matches_keywords (search : List String) (title desc : String) : Bool :=
  text_contains_any (title ++ " " ++ desc) search

/-- `is_allowed_job(title, company, location, desc)` (lines 56-60); the local
`blob` is inlined. -/
def is_allowed_job (search exclude : List String)
    (title company location desc : String) : Bool :=
  if text_contains_any
      (pyLower (title ++ " " ++ company ++ " " ++ location ++ " " ++ desc)) exclude then
    false
  else job_matches_keywords search title desc

/-- C4 -- `is_allowed_job` is true iff no exclude keyword occurs in the
lower-cased space-joined concatenation of the four fields and some include
keyword occurs in the lower-cased space-joined title and description. -/
theorem claim4_is_allowed_iff (search exclude : List String)
    (title company location desc : String) :
    is_allowed_job search exclude title company location desc = true ↔
      ((∀ kw ∈ exclude,
          ¬ inStr kw (pyLower (title ++ " " ++ company ++ " " ++ location ++ " " ++ desc)) = true) ∧
       (∃ kw ∈ search, inStr kw (pyLower (title ++ " " ++ desc)) = true)) := by
  unfold is_allowed_job job_matches_keywords text_contains_any
  simp only [pyLower_idem]
  split
  · next hex =>
      simp only [List.any_eq_true] at hex
      obtain ⟨kw, hkw, hc⟩ := hex
      constructor
      · intro h; exact absurd h (by simp)
      · rintro ⟨hall, -⟩
        exact absurd hc (by simpa using hall kw hkw)
  · next hex =>
      simp only [List.any_eq_true] at hex ⊢
      constructor
      · intro h
        refine ⟨?_, h⟩
        intro kw hkw hc
        exact hex ⟨kw, hkw, hc⟩
      · rintro ⟨-, hinc⟩
        exact hinc

/-! ## Job records and identity keys (`remote_jobs.py`, lines 77-78)

A job record is the dict built by the adapters; all fields the driver reads
are strings.  `fetch_wwr` builds no `summary` entry and the driver never
reads one, so the embedding carries `summary` with default `""`. -/

structure Job where
  source : String
  title : String
  company : String
  location : String
  url : String
  summary : String := ""
deriving DecidableEq

/-- `job_key(job)` (lines 77-78): `job.get("url") or
f"{job['source']}::{job['title']}::{job['company']}"`.  An absent or empty
(falsy) `url` selects the fallback triple. -/
def job_key (j : Job) : String :=
  if j.url = "" then j.source ++ "::" ++ j.title ++ "::" ++ j.company
  else j.url

/-- C8 -- the identity key is the url when non-empty, else
`source::title::company`. -/
theorem claim8_job_key_spec (j : Job) :
    (j.url ≠ "" → job_key j = j.url) ∧
    (j.url = "" → job_key j = j.source ++ "::" ++ j.title ++ "::" ++ j.company) := by
  unfold job_key
  constructor
  · intro h; rw [if_neg h]
  · intro h; rw [if_pos h]

/-- C8 witness: the two concrete examples from the specification. -/
theorem claim8_witness :
    job_key ⟨"RemoteOK", "Engineer", "Acme", "Remote", "", ""⟩ =
      "RemoteOK::Engineer::Acme" ∧
    job_key ⟨"WeWorkRemotely", "Dev", "Unknown", "Remote", "https://x/y", ""⟩ =
      "https://x/y" := by
  constructor
  · exact ((claim8_job_key_spec ⟨"RemoteOK", "Engineer", "Acme", "Remote", "", ""⟩).2
      rfl).trans (by decide)
  · exact (claim8_job_key_spec
      ⟨"WeWorkRemotely", "Dev", "Unknown", "Remote", "https://x/y", ""⟩).1 (by decide)

/-! ## Dedup ledger (`remote_jobs.py`, lines 66-75)

`load_sent` opens `SENT_CACHE_FILE` and parses it as JSON; its argument here
is `none` when the file is absent or does not parse as a JSON string list
(the `except` branch), and `some keys` when it holds the list `keys`.
`save_sent` writes `sorted(keys)`. -/

def load_sent : Option (List String) → Finset String
  | none => ∅
  | some keys => keys.toFinset

def save_sent (keys : Finset String) : List String :=
  keys.sort (· ≤ ·)

/-- C7 -- ledger round trip: saving then loading restores the set, the
persisted form is the sorted duplicate-free list of the set's elements, and
a missing/corrupt file loads as the empty set. -/
theorem claim7_ledger_round_trip (S : Finset String) :
    load_sent (some (save_sent S)) = S ∧
    List.Sorted (· ≤ ·) (save_sent S) ∧
    (save_sent S).Nodup ∧
    (save_sent S).toFinset = S ∧
    load_sent none = ∅ := by
  refine ⟨?_, ?_, ?_, ?_, rfl⟩
  · show (save_sent S).toFinset = S
    exact Finset.sort_toFinset _ S
  · exact Finset.sort_sorted _ S
  · exact Finset.sort_nodup _ S
  · exact Finset.sort_toFinset _ S

/-! ## Driver merge and run (`remote_jobs.py`, lines 199-242)

`unique` is a Python dict: insertion-ordered, and assigning to an existing
key replaces its value in place.  It is modelled as an association list. -/

/-- Python `unique[k] = j` on an insertion-ordered dict. -/
def dictInsert (d : List (String × Job)) (k : String) (j : Job) :
    List (String × Job) :=
  if d.any (fun p => p.1 == k) then
    d.map (fun p => if p.1 = k then (k, j) else p)
  else d ++ [(k, j)]

/-- The merge loop (lines 215-219): for each job in order, compute its key
and, when the key is not in the ledger, assign `unique[k] = j`. -/
def buildUnique (jobs : List Job) (sent : Finset String) : List (String × Job) :=
  jobs.foldl (fun d j => if job_key j ∈ sent then d else dictInsert d (job_key j) j) []

/-- `new_jobs = list(unique.values())` (line 221). -/
def new_jobs (jobs : List Job) (sent : Finset String) : List Job :=
  (buildUnique jobs sent).map Prod.snd

/-- Outcome of a completed `main()` run: the batch that was mailed, the
in-memory ledger at exit, and the list written to the ledger file
(`none` when `save_sent` was never called). -/
structure RunResult where
  newJobs : List Job
  sent : Finset String
  savedFile : Option (List String)
deriving DecidableEq

/-- `main()` (lines 199-242) from the point where the three fetches have been
concatenated into `jobs`.  `sent0` is the ledger loaded at line 200 and
`sendOk` tells whether the `send_email` call at line 238 returns normally;
when it raises, the exception propagates out of `main` before the ledger
update at lines 240-242, which is the `Except.error` case. -/
def runMain (jobs : List Job) (sent0 : Finset String) (sendOk : Bool) :
    Except Unit RunResult :=
  if (new_jobs jobs sent0).isEmpty then Except.ok ⟨[], sent0, none⟩
  else if sendOk then
    Except.ok ⟨new_jobs jobs sent0,
      (buildUnique jobs sent0).foldl (fun s p => insert p.1 s) sent0,
      some (save_sent ((buildUnique jobs sent0).foldl (fun s p => insert p.1 s) sent0))⟩
  else Except.error ()

/-! ### Dict lemmas for the merge step -/

theorem mem_dictInsert {d : List (String × Job)} {k : String} {j : Job}
    {p : String × Job} (hp : p ∈ dictInsert d k j) : p = (k, j) ∨ p ∈ d := by
  unfold dictInsert at hp
  split at hp
  · obtain ⟨q, hq, rfl⟩ := List.mem_map.1 hp
    by_cases h1 : q.1 = k
    · left; simp [h1]
    · right; simpa [h1] using hq
  · rcases List.mem_append.1 hp with h | h
    · right; exact h
    · left; simpa using h

theorem dictInsert_fst (d : List (String × Job)) (k : String) (j : Job) :
    (dictInsert d k j).map Prod.fst =
      if d.any (fun p => p.1 == k) then d.map Prod.fst
      else d.map Prod.fst ++ [k] := by
  unfold dictInsert
  split
  · rw [List.map_map]
    apply List.map_congr_left
    intro p hp
    by_cases h1 : p.1 = k
    · simp [h1]
    · simp [h1]
  · simp

theorem dictInsert_fst_nodup (d : List (String × Job)) (k : String) (j : Job)
    (hnd : (d.map Prod.fst).Nodup) : ((dictInsert d k j).map Prod.fst).Nodup := by
  rw [dictInsert_fst]
  split
  · exact hnd
  · next h =>
      have hk : k ∉ d.map Prod.fst := by
        intro hmem
        obtain ⟨p, hp, hp1⟩ := List.mem_map.1 hmem
        exact h (List.any_eq_true.2 ⟨p, hp, by simp [hp1]⟩)
      simp [List.nodup_append, hnd, hk]

theorem replace_of_not_mem (d : List (String × Job)) (k : String) (j : Job)
    (hk : k ∉ d.map Prod.fst) :
    d.map (fun p => if p.1 = k then (k, j) else p) = d := by
  have h : d.map (fun p => if p.1 = k then (k, j) else p) = d.map id := by
    apply List.map_congr_left
    intro p hp
    have hne : p.1 ≠ k := fun h => hk (List.mem_map.2 ⟨p, hp, h⟩)
    simp [hne]
  rw [h, List.map_id]

theorem filter_none_of_not_mem (d : List (String × Job)) (k : String)
    (hk : k ∉ d.map Prod.fst) : d.filter (fun p => p.1 == k) = [] := by
  induction d with
  | nil => rfl
  | cons q rest ih =>
      have hq : q.1 ≠ k := fun h => hk (by simp [h])
      have hr : k ∉ rest.map Prod.fst := fun h => hk (by simp [h])
      simp [List.filter_cons, hq, ih hr]

theorem filter_replace_eq (d : List (String × Job)) (k : String) (j : Job)
    (hnd : (d.map Prod.fst).Nodup) (hmem : k ∈ d.map Prod.fst) :
    (d.map (fun p => if p.1 = k then (k, j) else p)).filter (fun p => p.1 == k) =
      [(k, j)] := by
  induction d with
  | nil => simp at hmem
  | cons q rest ih =>
      rw [List.map_cons, List.nodup_cons] at hnd
      rw [List.map_cons] at hmem
      by_cases h1 : q.1 = k
      · have hrest : k ∉ rest.map Prod.fst := h1 ▸ hnd.1
        rw [List.map_cons, if_pos h1]
        rw [replace_of_not_mem rest k j hrest]
        simp [List.filter_cons, filter_none_of_not_mem rest k hrest]
      · have hmem' : k ∈ rest.map Prod.fst := by
          rcases List.mem_cons.1 hmem with h | h
          · exact absurd h.symm h1
          · exact h
        rw [List.map_cons, if_neg h1]
        simp only [List.filter_cons]
        rw [if_neg (by simp [h1])]
        exact ih hnd.2 hmem'

theorem filter_replace_ne (d : List (String × Job)) (k : String) (j : Job)
    (k0 : String) (hne : k ≠ k0) :
    (d.map (fun p => if p.1 = k then (k, j) else p)).filter (fun p => p.1 == k0) =
      d.filter (fun p => p.1 == k0) := by
  induction d with
  | nil => rfl
  | cons q rest ih =>
      by_cases h1 : q.1 = k
      · rw [List.map_cons, if_pos h1]
        simp only [List.filter_cons]
        rw [if_neg (by simp [hne]), if_neg (by simp [h1, hne]), ih]
      · rw [List.map_cons, if_neg h1]
        simp only [List.filter_cons]
        by_cases h0 : q.1 = k0
        · rw [if_pos (by simp [h0]), if_pos (by simp [h0]), ih]
        · rw [if_neg (by simp [h0]), if_neg (by simp [h0]), ih]

theorem filter_dictInsert_eq (d : List (String × Job)) (k : String) (j : Job)
    (hnd : (d.map Prod.fst).Nodup) :
    (dictInsert d k j).filter (fun p => p.1 == k) = [(k, j)] := by
  unfold dictInsert
  split
  · next h =>
      apply filter_replace_eq d k j hnd
      obtain ⟨p, hp, hp1⟩ := List.any_eq_true.1 h
      exact List.mem_map.2 ⟨p, hp, by simpa using hp1⟩
  · next h =>
      have hk : k ∉ d.map Prod.fst := by
        intro hmem
        obtain ⟨p, hp, hp1⟩ := List.mem_map.1 hmem
        exact h (List.any_eq_true.2 ⟨p, hp, by simp [hp1]⟩)
      rw [List.filter_append, filter_none_of_not_mem d k hk]
      simp

theorem filter_dictInsert_ne (d : List (String × Job)) (k : String) (j : Job)
    (k0 : String) (hne : k ≠ k0) :
    (dictInsert d k j).filter (fun p => p.1 == k0) =
      d.filter (fun p => p.1 == k0) := by
  unfold dictInsert
  split
  · exact filter_replace_ne d k j k0 hne
  · rw [List.filter_append]
    simp [hne]

/-! ### Invariants of the merge loop -/

theorem foldl_merge_inv (sent : Finset String) :
    ∀ (jobs : List Job) (d : List (String × Job)),
      (∀ p ∈ d, job_key p.2 = p.1 ∧ p.1 ∉ sent) → (d.map Prod.fst).Nodup →
      (∀ p ∈ jobs.foldl
          (fun d j => if job_key j ∈ sent then d else dictInsert d (job_key j) j) d,
        job_key p.2 = p.1 ∧ p.1 ∉ sent) ∧
      ((jobs.foldl
          (fun d j => if job_key j ∈ sent then d else dictInsert d (job_key j) j) d).map
            Prod.fst).Nodup
  | [], d, h1, h2 => ⟨h1, h2⟩
  | j :: rest, d, h1, h2 => by
      rw [List.foldl_cons]
      by_cases hs : job_key j ∈ sent
      · rw [if_pos hs]
        exact foldl_merge_inv sent rest d h1 h2
      · rw [if_neg hs]
        refine foldl_merge_inv sent rest _ ?_ (dictInsert_fst_nodup d (job_key j) j h2)
        intro p hp
        rcases mem_dictInsert hp with hpe | hpd
        · rw [hpe]
          exact ⟨rfl, hs⟩
        · exact h1 p hpd

theorem buildUnique_inv (jobs : List Job) (sent : Finset String) :
    (∀ p ∈ buildUnique jobs sent, job_key p.2 = p.1 ∧ p.1 ∉ sent) ∧
    ((buildUnique jobs sent).map Prod.fst).Nodup :=
  foldl_merge_inv sent jobs [] (by simp) (by simp)

theorem buildUnique_snoc (jobs : List Job) (j : Job) (sent : Finset String) :
    buildUnique (jobs ++ [j]) sent =
      if job_key j ∈ sent then buildUnique jobs sent
      else dictInsert (buildUnique jobs sent) (job_key j) j := by
  unfold buildUnique
  rw [List.foldl_append, List.foldl_cons, List.foldl_nil]

theorem buildUnique_filter (sent : Finset String) (k : String) (hk : k ∉ sent) :
    ∀ jobs : List Job,
      (buildUnique jobs sent).filter (fun p => p.1 == k) =
        ((jobs.filter (fun x => job_key x == k)).getLast?).toList.map (fun j => (k, j)) := by
  intro jobs
  induction jobs using List.reverseRecOn with
  | nil => simp [buildUnique]
  | append_singleton l j ih =>
      rw [buildUnique_snoc, List.filter_append]
      by_cases hs : job_key j ∈ sent
      · have hne : (job_key j == k) = false := by
          simp only [beq_eq_false_iff_ne]
          intro he
          exact hk (he ▸ hs)
        rw [if_pos hs]
        simp [hne, ih]
      · rw [if_neg hs]
        by_cases hjk : job_key j = k
        · rw [hjk, filter_dictInsert_eq _ k j (buildUnique_inv l sent).2]
          have hpos : (job_key j == k) = true := by simp [hjk]
          simp [hpos]
        · rw [filter_dictInsert_ne _ _ _ _ hjk]
          have hne : (job_key j == k) = false := by simp [hjk]
          simp [hne, ih]

theorem map_snd_filter_key (k : String) :
    ∀ d : List (String × Job), (∀ p ∈ d, job_key p.2 = p.1) →
      (d.map Prod.snd).filter (fun x => job_key x == k) =
        (d.filter (fun p => p.1 == k)).map Prod.snd
  | [], _ => rfl
  | p :: rest, h => by
      have hp := h p (by simp)
      have hrest := map_snd_filter_key k rest (fun q hq => h q (by simp [hq]))
      rw [List.map_cons]
      simp only [List.filter_cons]
      by_cases h0 : p.1 = k
      · rw [if_pos (by simp [hp, h0]), if_pos (by simp [h0]), List.map_cons, hrest]
      · rw [if_neg (by simp [hp, h0]), if_neg (by simp [h0]), hrest]

/-- C1 (amended) -- the retained batch keeps, for each identity key that is
not in the ledger, exactly the LAST record of the concatenated list having
that key (a later duplicate overwrites the earlier record in `unique`), and
every retained record's key is absent from the ledger. -/
theorem claim1_merge_last_wins (jobs : List Job) (sent : Finset String) :
    (∀ j ∈ new_jobs jobs sent, job_key j ∉ sent) ∧
    (∀ k, k ∉ sent →
      (new_jobs jobs sent).filter (fun x => job_key x == k) =
        ((jobs.filter (fun x => job_key x == k)).getLast?).toList) := by
  constructor
  · intro j hj
    obtain ⟨p, hp, rfl⟩ := List.mem_map.1 hj
    have h := (buildUnique_inv jobs sent).1 p hp
    rw [h.1]
    exact h.2
  · intro k hk
    unfold new_jobs
    rw [map_snd_filter_key k _ (fun p hp => ((buildUnique_inv jobs sent).1 p hp).1),
      buildUnique_filter sent k hk jobs, List.map_map]
    simp

/-- C1 counterexample: two records in one run share the key `"u"` (same url)
and are both new; the retained batch contains the SECOND record, not the
first, refuting first-seen-wins. -/
theorem claim1_counterexample :
    job_key ⟨"RemoteOK", "A", "Acme", "Remote", "u", ""⟩ =
      job_key ⟨"RemoteOK", "B", "Acme", "Remote", "u", ""⟩ ∧
    job_key ⟨"RemoteOK", "A", "Acme", "Remote", "u", ""⟩ ∉ (∅ : Finset String) ∧
    (⟨"RemoteOK", "A", "Acme", "Remote", "u", ""⟩ : Job) ≠
      ⟨"RemoteOK", "B", "Acme", "Remote", "u", ""⟩ ∧
    (⟨"RemoteOK", "A", "Acme", "Remote", "u", ""⟩ : Job) ∉
      new_jobs [⟨"RemoteOK", "A", "Acme", "Remote", "u", ""⟩,
                ⟨"RemoteOK", "B", "Acme", "Remote", "u", ""⟩] ∅ ∧
    new_jobs [⟨"RemoteOK", "A", "Acme", "Remote", "u", ""⟩,
              ⟨"RemoteOK", "B", "Acme", "Remote", "u", ""⟩] ∅ =
      [⟨"RemoteOK", "B", "Acme", "Remote", "u", ""⟩] := by
  refine ⟨by decide, by decide, by decide, by decide, by decide⟩

/-- C1 witness: the amended theorem applied to the duplicate-key run. -/
theorem claim1_witness :
    (new_jobs [⟨"RemoteOK", "A", "Acme", "Remote", "u", ""⟩,
               ⟨"RemoteOK", "B", "Acme", "Remote", "u", ""⟩] ∅).filter
        (fun x => job_key x == "u") =
      [⟨"RemoteOK", "B", "Acme", "Remote", "u", ""⟩] := by
  have h := (claim1_merge_last_wins
    [⟨"RemoteOK", "A", "Acme", "Remote", "u", ""⟩,
     ⟨"RemoteOK", "B", "Acme", "Remote", "u", ""⟩] ∅).2 "u" (by decide)
  rw [h]
  decide

/-! ### Key coverage of the merge loop (used for C2 and C6) -/

theorem foldl_merge_keys_mono (sent : Finset String) :
    ∀ (jobs : List Job) (d : List (String × Job)) (k : String),
      k ∈ d.map Prod.fst →
      k ∈ (jobs.foldl
        (fun d j => if job_key j ∈ sent then d else dictInsert d (job_key j) j) d).map
          Prod.fst
  | [], _, _, h => h
  | j :: rest, d, k, h => by
      rw [List.foldl_cons]
      by_cases hs : job_key j ∈ sent
      · rw [if_pos hs]
        exact foldl_merge_keys_mono sent rest d k h
      · rw [if_neg hs]
        refine foldl_merge_keys_mono sent rest _ k ?_
        rw [dictInsert_fst]
        split
        · exact h
        · exact List.mem_append.2 (Or.inl h)

theorem key_in_sent_or_buildUnique (sent : Finset String) :
    ∀ (jobs : List Job) (d : List (String × Job)) (j : Job), j ∈ jobs →
      job_key j ∈ sent ∨
      job_key j ∈ (jobs.foldl
        (fun d j => if job_key j ∈ sent then d else dictInsert d (job_key j) j) d).map
          Prod.fst
  | [], _, _, h => absurd h (List.not_mem_nil _)
  | j0 :: rest, d, j, h => by
      rw [List.foldl_cons]
      rcases List.mem_cons.1 h with rfl | hrest
      · by_cases hs : job_key j ∈ sent
        · exact Or.inl hs
        · rw [if_neg hs]
          refine Or.inr (foldl_merge_keys_mono sent rest _ _ ?_)
          rw [dictInsert_fst]
          split
          · next hany =>
              obtain ⟨p, hp, hp1⟩ := List.any_eq_true.1 hany
              exact List.mem_map.2 ⟨p, hp, by simpa using hp1⟩
          · exact List.mem_append.2 (Or.inr (by simp))
      · by_cases hs : job_key j0 ∈ sent
        · rw [if_pos hs]
          exact key_in_sent_or_buildUnique sent rest d j hrest
        · rw [if_neg hs]
          exact key_in_sent_or_buildUnique sent rest _ j hrest

theorem mem_buildUnique_keys (jobs : List Job) (sent : Finset String) (j : Job)
    (h : j ∈ jobs) :
    job_key j ∈ sent ∨ job_key j ∈ (buildUnique jobs sent).map Prod.fst :=
  key_in_sent_or_buildUnique sent jobs [] j h

theorem mem_foldl_insert :
    ∀ (d : List (String × Job)) (s : Finset String) (x : String),
      (x ∈ s ∨ x ∈ d.map Prod.fst) →
      x ∈ d.foldl (fun s p => insert p.1 s) s
  | [], s, x, h => by simpa using h
  | p :: rest, s, x, h => by
      rw [List.foldl_cons]
      refine mem_foldl_insert rest _ x ?_
      rcases h with hs | hm
      · exact Or.inl (Finset.mem_insert_of_mem hs)
      · rw [List.map_cons] at hm
        rcases List.mem_cons.1 hm with rfl | hm'
        · exact Or.inl (Finset.mem_insert_self _ _)
        · exact Or.inr hm'

theorem buildUnique_nil_of_all_sent :
    ∀ (jobs : List Job) (sent : Finset String),
      (∀ j ∈ jobs, job_key j ∈ sent) → buildUnique jobs sent = []
  | [], _, _ => rfl
  | j :: rest, sent, h => by
      unfold buildUnique
      rw [List.foldl_cons, if_pos (h j (by simp))]
      exact buildUnique_nil_of_all_sent rest sent (fun x hx => h x (by simp [hx]))

instance : DecidableEq (Except Unit RunResult) := fun
  | .error a, .error b => isTrue (by cases a; cases b; rfl)
  | .ok a, .ok b =>
      if h : a = b then isTrue (by rw [h]) else isFalse (by intro he; cases he; exact h rfl)
  | .error _, .ok _ => isFalse (by intro h; cases h)
  | .ok _, .error _ => isFalse (by intro h; cases h)

/-- Every fetched job's key ends up in the exit ledger of a successful run. -/
theorem runMain_covers_keys (jobs : List Job) (sent : Finset String) (r : RunResult)
    (h : runMain jobs sent true = Except.ok r) :
    ∀ j ∈ jobs, job_key j ∈ r.sent := by
  unfold runMain at h
  split at h
  · next hempty =>
      cases h
      intro j hj
      rcases mem_buildUnique_keys jobs sent j hj with hs | hk
      · exact hs
      · exfalso
        have hnil : (new_jobs jobs sent) = [] := List.isEmpty_iff.1 hempty
        have : buildUnique jobs sent = [] := List.map_eq_nil_iff.1 hnil
        rw [this] at hk
        simp at hk
  · next hempty =>
      rw [if_pos rfl] at h
      cases h
      intro j hj
      exact mem_foldl_insert _ _ _ (mem_buildUnique_keys jobs sent j hj)

/-- C6 -- a second run over the same fetched data, starting from the ledger
a first successful run left behind, finds no new jobs, sends nothing and
does not touch the ledger file. -/
theorem claim6_second_run_empty (jobs : List Job) (sent : Finset String)
    (r : RunResult) (h : runMain jobs sent true = Except.ok r) :
    runMain jobs r.sent true = Except.ok ⟨[], r.sent, none⟩ := by
  have hnil : buildUnique jobs r.sent = [] :=
    buildUnique_nil_of_all_sent jobs r.sent (runMain_covers_keys jobs sent r h)
  unfold runMain new_jobs
  rw [hnil]
  simp

/-- C6 witness: one new job, a successful first run, then a second run over
the same data. -/
theorem claim6_witness :
    runMain [⟨"RemoteOK", "Engineer", "Acme", "Remote", "u6", ""⟩]
        (insert "u6" (∅ : Finset String)) true =
      Except.ok ⟨[], insert "u6" (∅ : Finset String), none⟩ :=
  claim6_second_run_empty [⟨"RemoteOK", "Engineer", "Acme", "Remote", "u6", ""⟩] ∅
    ⟨[⟨"RemoteOK", "Engineer", "Acme", "Remote", "u6", ""⟩],
      insert "u6" (∅ : Finset String),
      some (save_sent (insert "u6" (∅ : Finset String)))⟩ (by rfl)

/-- C2 (amended) -- the ledger is extended and written only when the send
call returns normally; when `send_email` raises, the exception leaves
`main()` before lines 240-242, so the ledger file is not updated. -/
theorem claim2_ledger_update_on_send (jobs : List Job) (sent : Finset String) :
    (new_jobs jobs sent ≠ [] → runMain jobs sent false = Except.error ()) ∧
    (∀ r, runMain jobs sent true = Except.ok r → new_jobs jobs sent ≠ [] →
      r.savedFile = some (save_sent r.sent) ∧
      ∀ j ∈ jobs, job_key j ∈ r.sent) := by
  constructor
  · intro hne
    unfold runMain
    rw [if_neg (by simpa [List.isEmpty_iff] using hne)]
    rfl
  · intro r hr hne
    refine ⟨?_, runMain_covers_keys jobs sent r hr⟩
    unfold runMain at hr
    rw [if_neg (by simpa [List.isEmpty_iff] using hne), if_pos rfl] at hr
    cases hr
    rfl

/-- C2 counterexample: a run that finds one new job and whose send fails
ends as a propagated exception -- `main` never reaches `save_sent`, so the
ledger file is NOT updated, contrary to the claim. -/
theorem claim2_counterexample :
    new_jobs [⟨"RemoteOK", "Engineer", "Acme", "Remote", "c2x", ""⟩] ∅ ≠ [] ∧
    runMain [⟨"RemoteOK", "Engineer", "Acme", "Remote", "c2x", ""⟩] ∅ false =
      Except.error () := by
  refine ⟨by decide, by decide⟩

/-- C2 witness for the amended theorem. -/
theorem claim2_witness :
    runMain [⟨"RemoteOK", "Engineer", "Acme", "Remote", "c2w", ""⟩] ∅ false =
      Except.error () :=
  (claim2_ledger_update_on_send
    [⟨"RemoteOK", "Engineer", "Acme", "Remote", "c2w", ""⟩] ∅).1 (by decide)

/-! ## HTML link extractor (`indeed_imap.py`, lines 53-99)

`BeautifulSoup(html).select("a[href]")` is the external parsing boundary:
an `Anchor` models one selected anchor element, in document order, with
`href` the raw attribute value (`a.get("href") or ""`) and `text` the
visible text as returned by `a.get_text(" ", strip=True)`. -/

structure Anchor where
  href : String
  text : String
deriving DecidableEq

/-- Python whitespace class `\s` (ASCII): space, tab, newline, carriage
return, vertical tab, form feed. -/
def isWs (c : Char) : Bool :=
  c = ' ' || c = '\t' || c = '\n' || c = '\r' || c = '\x0b' || c = '\x0c'

/-- `re.sub(r"\s+", " ", s)` as a left-to-right scan: a whitespace
character opens (or continues) a run; the run as a whole contributes one
space.  `prevWs` records whether the previous character was whitespace. -/
def collapseWsAux (prevWs : Bool) : List Char → List Char
  | [] => []
  | c :: rest =>
    if isWs c then
      if prevWs then collapseWsAux true rest
      else ' ' :: collapseWsAux true rest
    else c :: collapseWsAux false rest

/-- `re.sub(r"\s+", " ", s)`: every maximal whitespace run becomes one
space. -/
def collapseWs (l : List Char) : List Char :=
  collapseWsAux false l

/-- Python `str.strip()` (character-list form). -/
def trimWs (l : List Char) : List Char :=
  ((l.dropWhile isWs).reverse.dropWhile isWs).reverse

/-- Python `s.strip()`. -/
def pyStrip (s : String) : String :=
  String.mk (trimWs s.data)

/-- `_normalize_ws(s)` (lines 61-62). -/
def normalize_ws (s : String) : String :=
  String.mk (trimWs (collapseWs s.data))

/-- `_looks_like_job_link(url)` (lines 53-58). -/
def looks_like_job_link (url : String) : Bool :=
  if pyLower url = "" then false
  else inStr "indeed" (pyLower url)

/-- The record built at lines 90-97. -/
def mkIndeedJob (href title : String) : Job :=
  ⟨"Indeed(Alert)", title, "Unknown", "Remote/Unknown", href, ""⟩

/-- The anchor loop of `extract_jobs_from_indeed_email_html`
(lines 76-97); `seen` is the set of already-processed hrefs. -/
def extractAux : List Anchor → List String → List Job
  | [], _ => []
  | a :: rest, seen =>
    if ¬ looks_like_job_link (pyStrip a.href) then extractAux rest seen
    else if pyStrip a.href ∈ seen then extractAux rest seen
    else if (normalize_ws a.text).length < 6 then
      extractAux rest (pyStrip a.href :: seen)
    else
      mkIndeedJob (pyStrip a.href) (normalize_ws a.text) ::
        extractAux rest (pyStrip a.href :: seen)

/-- `extract_jobs_from_indeed_email_html(html)` (lines 65-99), over the
anchors of the parsed document. -/
def extract_jobs_from_indeed_email_html (anchors : List Anchor) : List Job :=
  extractAux anchors []

/-- The `seen` set as it stands after the loop has processed `anchors`. -/
def seenAfter : List Anchor → List String → List String
  | [], seen => seen
  | a :: rest, seen =>
    if ¬ looks_like_job_link (pyStrip a.href) then seenAfter rest seen
    else if pyStrip a.href ∈ seen then seenAfter rest seen
    else seenAfter rest (pyStrip a.href :: seen)

/-! ### Specification-side description of the extractor (for C9) -/

/-- Written from the (amended) claim: an anchor is emitted when its
stripped href passes the brand test, no earlier anchor has the same
stripped href, and its normalized text has length at least 6. -/
def anchorEmit (prev : List Anchor) (a : Anchor) : Bool :=
  looks_like_job_link (pyStrip a.href) &&
  prev.all (fun b => pyStrip b.href != pyStrip a.href) &&
  decide (6 ≤ (normalize_ws a.text).length)

/-- Record-per-emitted-anchor, in document order; `prev` is the list of
anchors already scanned. -/
def specGo : List Anchor → List Anchor → List Job
  | _, [] => []
  | prev, a :: rest =>
    (if anchorEmit prev a then
      [mkIndeedJob (pyStrip a.href) (normalize_ws a.text)]
    else []) ++ specGo (prev ++ [a]) rest

/-- The claim's description of the extractor output. -/
def specExtract (anchors : List Anchor) : List Job :=
  specGo [] anchors

theorem extractAux_eq_specGo :
    ∀ (rest prev : List Anchor) (seen : List String),
      (∀ h, h ∈ seen ↔
        (looks_like_job_link h = true ∧ ∃ b ∈ prev, pyStrip b.href = h)) →
      extractAux rest seen = specGo prev rest
  | [], _, _, _ => rfl
  | a :: rest, prev, seen, hinv => by
      unfold extractAux specGo
      by_cases hlook : looks_like_job_link (pyStrip a.href) = true
      · by_cases hseen : pyStrip a.href ∈ seen
        · -- an earlier anchor already carried this href: both sides skip
          obtain ⟨-, b, hb, hbh⟩ := (hinv _).1 hseen
          have hemit : ¬ anchorEmit prev a = true := by
            unfold anchorEmit
            have hfail : prev.all (fun b => pyStrip b.href != pyStrip a.href) = false := by
              refine List.all_eq_false.2 ⟨b, hb, ?_⟩
              simp [hbh]
            simp [hfail]
          rw [if_neg (by simp [hlook]), if_pos hseen, if_neg hemit, List.nil_append]
          refine extractAux_eq_specGo rest (prev ++ [a]) seen ?_
          intro h
          rw [hinv h]
          constructor
          · rintro ⟨hl, c, hc, hch⟩
            exact ⟨hl, c, List.mem_append.2 (Or.inl hc), hch⟩
          · rintro ⟨hl, c, hc, hch⟩
            rcases List.mem_append.1 hc with hc1 | hc2
            · exact ⟨hl, c, hc1, hch⟩
            · have hca : c = a := by simpa using hc2
              rw [hca] at hch
              exact ⟨hl, b, hb, by rw [hbh, hch]⟩
        · -- new href
          have hall : prev.all (fun b => pyStrip b.href != pyStrip a.href) = true := by
            refine List.all_eq_true.2 ?_
            intro b hb
            simp only [bne_iff_ne, ne_eq]
            intro he
            exact hseen ((hinv _).2 ⟨hlook, b, hb, he⟩)
          have hinvnew : ∀ h, h ∈ (pyStrip a.href :: seen) ↔
              (looks_like_job_link h = true ∧ ∃ b ∈ prev ++ [a], pyStrip b.href = h) := by
            intro h
            constructor
            · intro hh
              rcases List.mem_cons.1 hh with rfl | hh'
              · exact ⟨hlook, a, List.mem_append.2 (Or.inr (by simp)), rfl⟩
              · obtain ⟨hl, c, hc, hch⟩ := (hinv h).1 hh'
                exact ⟨hl, c, List.mem_append.2 (Or.inl hc), hch⟩
            · rintro ⟨hl, c, hc, hch⟩
              rcases List.mem_append.1 hc with hc1 | hc2
              · exact List.mem_cons.2 (Or.inr ((hinv h).2 ⟨hl, c, hc1, hch⟩))
              · have hca : c = a := by simpa using hc2
                rw [hca] at hch
                exact List.mem_cons.2 (Or.inl hch.symm)
          rw [if_neg (by simp [hlook]), if_neg hseen]
          by_cases hlen : (normalize_ws a.text).length < 6
          · have hemit : ¬ anchorEmit prev a = true := by
              unfold anchorEmit
              have hd : decide (6 ≤ (normalize_ws a.text).length) = false := by
                simp only [decide_eq_false_iff_not, not_le]
                exact hlen
              simp [hd]
            rw [if_pos hlen, if_neg hemit, List.nil_append]
            exact extractAux_eq_specGo rest (prev ++ [a]) _ hinvnew
          · have hemit : anchorEmit prev a = true := by
              unfold anchorEmit
              have hd : decide (6 ≤ (normalize_ws a.text).length) = true := by
                simp only [decide_eq_true_eq]
                omega
              simp [hlook, hall, hd]
            rw [if_neg hlen, if_pos hemit, List.singleton_append]
            exact congrArg _ (extractAux_eq_specGo rest (prev ++ [a]) _ hinvnew)
      · -- href fails the brand test: both sides skip, seen unchanged
        have hlf : looks_like_job_link (pyStrip a.href) = false := by
          simpa using hlook
        have hemit : ¬ anchorEmit prev a = true := by
          unfold anchorEmit
          simp [hlf]
        rw [if_pos (by simp [hlf]), if_neg hemit, List.nil_append]
        refine extractAux_eq_specGo rest (prev ++ [a]) seen ?_
        intro h
        rw [hinv h]
        constructor
        · rintro ⟨hl, c, hc, hch⟩
          exact ⟨hl, c, List.mem_append.2 (Or.inl hc), hch⟩
        · rintro ⟨hl, c, hc, hch⟩
          rcases List.mem_append.1 hc with hc1 | hc2
          · exact ⟨hl, c, hc1, hch⟩
          · have hca : c = a := by simpa using hc2
            rw [hca] at hch
            rw [← hch] at hl
            exact absurd hl hlook

/-- C9 (amended) -- the extractor emits, in document order, one record per
anchor whose whitespace-STRIPPED href is non-empty, contains "indeed"
case-insensitively, did not occur as the stripped href of an earlier anchor,
and whose normalized text has length at least 6; the record's url is the
stripped href and its title the normalized text, with the fixed
source/company/location/summary fields. -/
theorem claim9_extractor_characterization (anchors : List Anchor) :
    extract_jobs_from_indeed_email_html anchors = specExtract anchors :=
  extractAux_eq_specGo anchors [] [] (by simp)

/-- C9 counterexample: an href with surrounding whitespace.  The emitted
record's url is the STRIPPED href, not the anchor's href attribute as the
claim states (the claim's per-anchor conditions and dedup key are likewise
about the stripped href). -/
theorem claim9_counterexample :
    (extract_jobs_from_indeed_email_html
        [⟨" https://indeed.com/a ", "Senior Backend Engineer"⟩]).map Job.url =
      ["https://indeed.com/a"] ∧
    (" https://indeed.com/a " : String) ≠ "https://indeed.com/a" := by
  refine ⟨by decide, by decide⟩

/-! ### Where emitted records come from (for C10 and C3) -/

theorem extractAux_src :
    ∀ (rest : List Anchor) (seen : List String) (j : Job),
      j ∈ extractAux rest seen →
      ∃ b ∈ rest, j = mkIndeedJob (pyStrip b.href) (normalize_ws b.text) ∧
        6 ≤ (normalize_ws b.text).length ∧
        looks_like_job_link (pyStrip b.href) = true
  | [], _, _, h => absurd h (List.not_mem_nil _)
  | a :: rest, seen, j, h => by
      unfold extractAux at h
      by_cases hlook : looks_like_job_link (pyStrip a.href) = true
      · rw [if_neg (by simp [hlook])] at h
        by_cases hseen : pyStrip a.href ∈ seen
        · rw [if_pos hseen] at h
          obtain ⟨b, hb, hrest⟩ := extractAux_src rest seen j h
          exact ⟨b, by simp [hb], hrest⟩
        · rw [if_neg hseen] at h
          by_cases hlen : (normalize_ws a.text).length < 6
          · rw [if_pos hlen] at h
            obtain ⟨b, hb, hrest⟩ := extractAux_src rest _ j h
            exact ⟨b, by simp [hb], hrest⟩
          · rw [if_neg hlen] at h
            rcases List.mem_cons.1 h with rfl | h'
            · exact ⟨a, by simp, rfl, by omega, hlook⟩
            · obtain ⟨b, hb, hrest⟩ := extractAux_src rest _ j h'
              exact ⟨b, by simp [hb], hrest⟩
      · rw [if_pos (by simpa using hlook)] at h
        obtain ⟨b, hb, hrest⟩ := extractAux_src rest seen j h
        exact ⟨b, by simp [hb], hrest⟩

theorem extractAux_seen_blocks :
    ∀ (rest : List Anchor) (seen : List String) (h : String),
      h ∈ seen → ∀ j ∈ extractAux rest seen, j.url ≠ h
  | [], _, _, _, _, hj => absurd hj (List.not_mem_nil _)
  | a :: rest, seen, h, hs, j, hj => by
      unfold extractAux at hj
      by_cases hlook : looks_like_job_link (pyStrip a.href) = true
      · rw [if_neg (by simp [hlook])] at hj
        by_cases hseen : pyStrip a.href ∈ seen
        · rw [if_pos hseen] at hj
          exact extractAux_seen_blocks rest seen h hs j hj
        · rw [if_neg hseen] at hj
          have hs' : h ∈ pyStrip a.href :: seen := List.mem_cons.2 (Or.inr hs)
          by_cases hlen : (normalize_ws a.text).length < 6
          · rw [if_pos hlen] at hj
            exact extractAux_seen_blocks rest _ h hs' j hj
          · rw [if_neg hlen] at hj
            rcases List.mem_cons.1 hj with rfl | hj'
            · show pyStrip a.href ≠ h
              intro he
              exact hseen (he ▸ hs)
            · exact extractAux_seen_blocks rest _ h hs' j hj'
      · rw [if_pos (by simpa using hlook)] at hj
        exact extractAux_seen_blocks rest seen h hs j hj


theorem extractAux_cons (a : Anchor) (rest : List Anchor) (seen : List String) :
    extractAux (a :: rest) seen =
      if ¬ looks_like_job_link (pyStrip a.href) = true then extractAux rest seen
      else if pyStrip a.href ∈ seen then extractAux rest seen
      else if (normalize_ws a.text).length < 6 then
        extractAux rest (pyStrip a.href :: seen)
      else
        mkIndeedJob (pyStrip a.href) (normalize_ws a.text) ::
          extractAux rest (pyStrip a.href :: seen) := rfl

theorem seenAfter_cons (a : Anchor) (rest : List Anchor) (seen : List String) :
    seenAfter (a :: rest) seen =
      if ¬ looks_like_job_link (pyStrip a.href) = true then seenAfter rest seen
      else if pyStrip a.href ∈ seen then seenAfter rest seen
      else seenAfter rest (pyStrip a.href :: seen) := rfl

theorem extractAux_append :
    ∀ (l1 l2 : List Anchor) (seen : List String),
      extractAux (l1 ++ l2) seen =
        extractAux l1 seen ++ extractAux l2 (seenAfter l1 seen)
  | [], _, _ => rfl
  | a :: l1, l2, seen => by
      rw [List.cons_append, extractAux_cons, extractAux_cons, seenAfter_cons]
      by_cases hlook : looks_like_job_link (pyStrip a.href) = true
      · have hnn : ¬ ¬ looks_like_job_link (pyStrip a.href) = true := fun hc => hc hlook
        rw [if_neg hnn, if_neg hnn, if_neg hnn]
        by_cases hseen : pyStrip a.href ∈ seen
        · rw [if_pos hseen, if_pos hseen, if_pos hseen]
          exact extractAux_append l1 l2 seen
        · rw [if_neg hseen, if_neg hseen, if_neg hseen]
          by_cases hlen : (normalize_ws a.text).length < 6
          · rw [if_pos hlen, if_pos hlen]
            exact extractAux_append l1 l2 _
          · rw [if_neg hlen, if_neg hlen, List.cons_append]
            exact congrArg _ (extractAux_append l1 l2 _)
      · rw [if_pos hlook, if_pos hlook, if_pos hlook]
        exact extractAux_append l1 l2 seen

theorem seenAfter_append :
    ∀ (l1 l2 : List Anchor) (seen : List String),
      seenAfter (l1 ++ l2) seen = seenAfter l2 (seenAfter l1 seen)
  | [], _, _ => rfl
  | a :: l1, l2, seen => by
      rw [List.cons_append, seenAfter_cons, seenAfter_cons]
      by_cases hlook : looks_like_job_link (pyStrip a.href) = true
      · have hnn : ¬ ¬ looks_like_job_link (pyStrip a.href) = true := fun hc => hc hlook
        rw [if_neg hnn, if_neg hnn]
        by_cases hseen : pyStrip a.href ∈ seen
        · rw [if_pos hseen, if_pos hseen]
          exact seenAfter_append l1 l2 seen
        · rw [if_neg hseen, if_neg hseen]
          exact seenAfter_append l1 l2 _
      · rw [if_pos hlook, if_pos hlook]
        exact seenAfter_append l1 l2 seen

theorem seenAfter_single_mem (a : Anchor) (seen : List String)
    (hlook : looks_like_job_link (pyStrip a.href) = true) :
    pyStrip a.href ∈ seenAfter [a] seen := by
  unfold seenAfter
  rw [if_neg (by simp [hlook])]
  by_cases hseen : pyStrip a.href ∈ seen
  · rw [if_pos hseen]
    exact hseen
  · rw [if_neg hseen]
    exact List.mem_cons_self _ _

/-- C10 -- the href is recorded in `seen` BEFORE the anchor-text length
check, so if the first anchor carrying a matching href has normalized text
shorter than 6 characters, no record with that url is ever produced for the
document, even when a later anchor repeats the href with a long title. -/
theorem claim10_short_first_anchor_poisons_href (pre : List Anchor) (a : Anchor)
    (post : List Anchor)
    (hlook : looks_like_job_link (pyStrip a.href) = true)
    (hfirst : ∀ b ∈ pre, pyStrip b.href ≠ pyStrip a.href)
    (hshort : (normalize_ws a.text).length < 6) :
    ∀ j ∈ extract_jobs_from_indeed_email_html (pre ++ a :: post),
      j.url ≠ pyStrip a.href := by
  intro j hj
  have hsplit : pre ++ a :: post = (pre ++ [a]) ++ post := by simp
  rw [extract_jobs_from_indeed_email_html, hsplit, extractAux_append] at hj
  rcases List.mem_append.1 hj with h1 | h2
  · obtain ⟨b, hb, hbj, hlen, -⟩ := extractAux_src _ _ _ h1
    rcases List.mem_append.1 hb with hb1 | hb2
    · rw [hbj]
      exact hfirst b hb1
    · have hba : b = a := by simpa using hb2
      rw [hba] at hlen
      omega
  · refine extractAux_seen_blocks post _ _ ?_ j h2
    rw [seenAfter_append]
    exact seenAfter_single_mem a _ hlook

/-- C10 witness: the first "indeed" anchor has the 2-character text `"Hi"`,
the second repeats the href with a long title; no record with that url is
emitted. -/
theorem claim10_witness :
    mkIndeedJob "https://indeed.com/j" "Senior Backend Engineer" ∉
      extract_jobs_from_indeed_email_html
        [⟨"https://indeed.com/j", "Hi"⟩,
         ⟨"https://indeed.com/j", "Senior Backend Engineer"⟩] := by
  intro hmem
  exact claim10_short_first_anchor_poisons_href [] ⟨"https://indeed.com/j", "Hi"⟩
    [⟨"https://indeed.com/j", "Senior Backend Engineer"⟩]
    (by decide) (by simp) (by decide)
    (mkIndeedJob "https://indeed.com/j" "Senior Backend Engineer") hmem (by decide)

/-! ## Feed adapter (`remote_jobs.py`, lines 84-156)

`feedparser` and the HTTP request are the external boundary: a `FeedEntry`
models one parsed feed entry with its `title`, `summary` and `link` strings
(`getattr(e, ..., "") or ""` already applied).  A failed request (the
`except` at lines 102-104) is the `none` case and yields `[]`. -/

structure FeedEntry where
  title : String
  summary : String
  link : String
deriving DecidableEq

/-- `fetch_wwr()` (lines 84-156): per entry, reject when an exclude keyword
occurs in `f"{title} Remote {summary}".lower()`, then require
`job_matches_keywords(title, summary)`, then build the record. -/
def fetch_wwr (search exclude : List String) :
    Option (List FeedEntry) → List Job
  | none => []
  | some entries =>
      entries.filterMap (fun e =>
        if text_contains_any (pyLower (e.title ++ " Remote " ++ e.summary)) exclude then
          none
        else if job_matches_keywords search e.title e.summary then
          some ⟨"WeWorkRemotely", e.title, "Unknown", "Remote", e.link, ""⟩
        else none)

/-- C3 (amended) -- every record produced by the mailbox/HTML adapter has a
non-empty title (its normalized anchor text has length at least 6); the
feed adapter offers no such guarantee (see the counterexample). -/
theorem claim3_indeed_titles_nonempty (anchors : List Anchor) (j : Job)
    (hj : j ∈ extract_jobs_from_indeed_email_html anchors) : j.title ≠ "" := by
  obtain ⟨b, -, hbj, hlen, -⟩ := extractAux_src anchors [] j hj
  rw [hbj]
  show normalize_ws b.text ≠ ""
  intro he
  rw [he] at hlen
  simp at hlen

/-- C3 counterexample: a feed entry with an empty title whose summary alone
matches an include keyword is accepted by `fetch_wwr`, producing a record
whose title is the empty string. -/
theorem claim3_counterexample :
    (fetch_wwr ["developer", "engineer"] EXCLUDE_CHINA_KEYWORDS
        (some [⟨"", "developer", "https://wwr/x"⟩])).map Job.title = [""] := by
  decide

/-- C3 witness for the amended theorem. -/
theorem claim3_witness :
    (mkIndeedJob "https://click.indeed.com/rc/abc" "Senior Backend Engineer").title ≠
      "" :=
  claim3_indeed_titles_nonempty
    [⟨"https://click.indeed.com/rc/abc", "Senior Backend Engineer"⟩]
    (mkIndeedJob "https://click.indeed.com/rc/abc" "Senior Backend Engineer")
    (by decide)

/-! ## JSON-API adapter (`remote_jobs.py`, lines 158-177)

`requests.get(...).json()` yields an arbitrary JSON value; the `try` block
catches request/HTTP/parse failures only (the `none` case below).  The loop
body `data[1:]` and `item.get(...)` run OUTSIDE the `try`: slicing a
non-sequence raises `TypeError`, and `.get` on a non-dict element raises
`AttributeError`, both propagating to the caller. -/

inductive PyJson where
  | null
  | bool (b : Bool)
  | num (n : Int)
  | str (s : String)
  | arr (xs : List PyJson)
  | obj (kvs : List (String × PyJson))

/-- Python truthiness of a JSON value. -/
def truthy : PyJson → Bool
  | .null => false
  | .bool b => b
  | .num n => n != 0
  | .str s => !(s == "")
  | .arr xs => !xs.isEmpty
  | .obj kvs => !kvs.isEmpty

/-- Python `a or b`. -/
def pyOr (a b : PyJson) : PyJson :=
  if truthy a then a else b

mutual
/-- Python `repr` of a JSON value (strings assumed free of quote and escape
characters, which the keyword matching never produces). -/
def pyRepr : PyJson → String
  | .null => "None"
  | .bool true => "True"
  | .bool false => "False"
  | .num n => toString n
  | .str s => "\x27" ++ s ++ "\x27"
  | .arr xs => "[" ++ pyReprList xs ++ "]"
  | .obj kvs => "\x7b" ++ pyReprObj kvs ++ "\x7d"

def pyReprList : List PyJson → String
  | [] => ""
  | [x] => pyRepr x
  | x :: y :: rest => pyRepr x ++ ", " ++ pyReprList (y :: rest)

def pyReprObj : List (String × PyJson) → String
  | [] => ""
  | [(k, v)] => "\x27" ++ k ++ "\x27: " ++ pyRepr v
  | (k, v) :: q :: rest =>
      "\x27" ++ k ++ "\x27: " ++ pyRepr v ++ ", " ++ pyReprObj (q :: rest)
end

/-- Python `str` of a JSON value (as used by the f-strings in
`is_allowed_job`). -/
def pyStr : PyJson → String
  | .str s => s
  | v => pyRepr v

/-- Python `item.get(k, dflt)` on a parsed-JSON dict. -/
def dictGetD (kvs : List (String × PyJson)) (k : String) (dflt : PyJson) : PyJson :=
  match kvs.find? (fun p => p.1 == k) with
  | some p => p.2
  | none => dflt

/-- Exceptions the loop body can raise. -/
inductive PyErr where
  | typeError
  | attributeError
deriving DecidableEq

/-- `item.get("position") or item.get("title") or ""` (line 168). -/
def remoteokTitle (kvs : List (String × PyJson)) : PyJson :=
  pyOr (dictGetD kvs "position" .null) (pyOr (dictGetD kvs "title" .null) (.str ""))

/-- The dict appended at lines 170-176. -/
def remoteokJob (kvs : List (String × PyJson)) : List (String × PyJson) :=
  [("source", .str "RemoteOK"),
   ("title", remoteokTitle kvs),
   ("company", dictGetD kvs "company" (.str "Unknown")),
   ("location", dictGetD kvs "location" (.str "Remote")),
   ("url", dictGetD kvs "url" (.str ""))]

/-- The `for item in data[1:]` loop (lines 167-176); raises
`AttributeError` at the first element that is not a dict. -/
def remoteokItems (search exclude : List String) :
    List PyJson → Except PyErr (List (List (String × PyJson)))
  | [] => .ok []
  | item :: rest =>
    match item with
    | .obj kvs =>
        match remoteokItems search exclude rest with
        | .error e => .error e
        | .ok js =>
            if is_allowed_job search exclude (pyStr (remoteokTitle kvs))
                (pyStr (dictGetD kvs "company" (.str "")))
                (pyStr (dictGetD kvs "location" (.str "")))
                (pyStr (dictGetD kvs "description" (.str ""))) then
              .ok (remoteokJob kvs :: js)
            else .ok js
    | _ => .error .attributeError

/-- `fetch_remoteok()` (lines 158-177).  `none` models a request/HTTP/parse
failure (caught, returns `[]`).  A parsed string still slices (`data[1:]`),
then its characters lack `.get`; any other non-list value is not
subscriptable by a slice at all. -/
def fetch_remoteok (search exclude : List String) :
    Option PyJson → Except PyErr (List (List (String × PyJson)))
  | none => .ok []
  | some (.arr xs) => remoteokItems search exclude (xs.drop 1)
  | some (.str s) =>
      match s.data.drop 1 with
      | [] => .ok []
      | _ :: _ => .error .attributeError
  | some _ => .error .typeError

def exceptOk {ε α : Type} : Except ε α → Bool
  | .ok _ => true
  | .error _ => false

theorem remoteokItems_ok_iff (search exclude : List String) :
    ∀ l : List PyJson,
      exceptOk (remoteokItems search exclude l) = true ↔
        ∀ item ∈ l, ∃ kvs, item = PyJson.obj kvs
  | [] => by
      constructor
      · intro _ x hx
        exact absurd hx (List.not_mem_nil _)
      · intro _
        rfl
  | item :: rest => by
      have ih := remoteokItems_ok_iff search exclude rest
      cases item with
      | obj kvs =>
          cases hr : remoteokItems search exclude rest with
          | error e =>
              constructor
              · intro h
                simp [remoteokItems, hr, exceptOk] at h
              · intro h
                have hrest := ih.2 (fun x hx => h x (by simp [hx]))
                rw [hr] at hrest
                exact absurd hrest (by simp [exceptOk])
          | ok js =>
              constructor
              · intro _ x hx
                rcases List.mem_cons.1 hx with rfl | hx'
                · exact ⟨kvs, rfl⟩
                · exact ih.1 (by rw [hr]; rfl) x hx'
              · intro _
                simp only [remoteokItems, hr]
                split
                · rfl
                · rfl
      | null =>
          constructor
          · intro h
            simp [remoteokItems, exceptOk] at h
          · intro h
            obtain ⟨kvs, heq⟩ := h PyJson.null (by simp)
            exact PyJson.noConfusion heq
      | bool b =>
          constructor
          · intro h
            simp [remoteokItems, exceptOk] at h
          · intro h
            obtain ⟨kvs, heq⟩ := h (PyJson.bool b) (by simp)
            exact PyJson.noConfusion heq
      | num n =>
          constructor
          · intro h
            simp [remoteokItems, exceptOk] at h
          · intro h
            obtain ⟨kvs, heq⟩ := h (PyJson.num n) (by simp)
            exact PyJson.noConfusion heq
      | str s =>
          constructor
          · intro h
            simp [remoteokItems, exceptOk] at h
          · intro h
            obtain ⟨kvs, heq⟩ := h (PyJson.str s) (by simp)
            exact PyJson.noConfusion heq
      | arr xs =>
          constructor
          · intro h
            simp [remoteokItems, exceptOk] at h
          · intro h
            obtain ⟨kvs, heq⟩ := h (PyJson.arr xs) (by simp)
            exact PyJson.noConfusion heq

/-- C5 (amended) -- `fetch_remoteok` completes without raising exactly when
the request/HTTP/parse step fails (then it returns `[]`), or the parsed
JSON is an array whose elements past the first are all objects, or the
parsed JSON is a string of length at most 1 (its slice `data[1:]` is empty,
so the loop body never runs and `[]` is returned); every other successfully
parsed shape raises out of the adapter (see the counterexample). -/
theorem claim5_remoteok_raise_iff (search exclude : List String) :
    fetch_remoteok search exclude none = Except.ok [] ∧
    ∀ resp : PyJson,
      exceptOk (fetch_remoteok search exclude (some resp)) = true ↔
        ((∃ xs, resp = PyJson.arr xs ∧
            ∀ item ∈ xs.drop 1, ∃ kvs, item = PyJson.obj kvs) ∨
         (∃ s, resp = PyJson.str s ∧ s.length ≤ 1)) := by
  refine ⟨rfl, ?_⟩
  intro resp
  cases resp with
  | arr xs =>
      rw [show fetch_remoteok search exclude (some (PyJson.arr xs)) =
            remoteokItems search exclude (xs.drop 1) from rfl,
        remoteokItems_ok_iff]
      constructor
      · intro h
        exact Or.inl ⟨xs, rfl, h⟩
      · rintro (⟨xs', heq, hall⟩ | ⟨t, heq, -⟩)
        · injection heq with h'
          subst h'
          exact hall
        · exact PyJson.noConfusion heq
  | str s =>
      obtain ⟨l⟩ := s
      cases l with
      | nil =>
          constructor
          · intro _
            exact Or.inr ⟨String.mk [], rfl, by decide⟩
          · intro _
            rfl
      | cons c cs =>
          cases cs with
          | nil =>
              constructor
              · intro _
                exact Or.inr ⟨String.mk [c], rfl, Nat.le.refl⟩
              · intro _
                rfl
          | cons c2 cs2 =>
              constructor
              · intro h
                simp [fetch_remoteok, exceptOk] at h
              · rintro (⟨xs, heq, -⟩ | ⟨t, heq, hlen⟩)
                · exact PyJson.noConfusion heq
                · injection heq with h'
                  rw [← h'] at hlen
                  have h2 : (String.mk (c :: c2 :: cs2)).length = cs2.length + 2 := by
                    show (c :: c2 :: cs2).length = cs2.length + 2
                    simp
                  omega
  | null =>
      constructor
      · intro h
        simp [fetch_remoteok, exceptOk] at h
      · rintro (⟨xs, heq, -⟩ | ⟨t, heq, -⟩) <;> exact PyJson.noConfusion heq
  | bool b =>
      constructor
      · intro h
        simp [fetch_remoteok, exceptOk] at h
      · rintro (⟨xs, heq, -⟩ | ⟨t, heq, -⟩) <;> exact PyJson.noConfusion heq
  | num n =>
      constructor
      · intro h
        simp [fetch_remoteok, exceptOk] at h
      · rintro (⟨xs, heq, -⟩ | ⟨t, heq, -⟩) <;> exact PyJson.noConfusion heq
  | obj kvs =>
      constructor
      · intro h
        simp [fetch_remoteok, exceptOk] at h
      · rintro (⟨xs, heq, -⟩ | ⟨t, heq, -⟩) <;> exact PyJson.noConfusion heq

/-- C5 counterexample: the JSON number `5` parses fine but `data[1:]`
raises `TypeError`; the JSON array `[null, 7]` parses fine but
`item.get("position")` on `7` raises `AttributeError`.  Both escape the
adapter, refuting never-raises-for-any-parsed-shape. -/
theorem claim5_counterexample :
    fetch_remoteok SEARCH_KEYWORDS_default EXCLUDE_CHINA_KEYWORDS
        (some (.num 5)) = Except.error PyErr.typeError ∧
    fetch_remoteok SEARCH_KEYWORDS_default EXCLUDE_CHINA_KEYWORDS
        (some (.arr [.null, .num 7])) = Except.error PyErr.attributeError := by
  refine ⟨rfl, rfl⟩

/-- C5 witness: the amended characterization applied to a one-character
string response (empty slice, no raise) and to an array of objects. -/
theorem claim5_witness :
    exceptOk (fetch_remoteok SEARCH_KEYWORDS_default EXCLUDE_CHINA_KEYWORDS
        (some (PyJson.str "x"))) = true ∧
    exceptOk (fetch_remoteok SEARCH_KEYWORDS_default EXCLUDE_CHINA_KEYWORDS
        (some (PyJson.arr [PyJson.null, PyJson.obj []]))) = true :=
  ⟨((claim5_remoteok_raise_iff SEARCH_KEYWORDS_default EXCLUDE_CHINA_KEYWORDS).2
      (PyJson.str "x")).mpr (Or.inr ⟨"x", rfl, by decide⟩),
   ((claim5_remoteok_raise_iff SEARCH_KEYWORDS_default EXCLUDE_CHINA_KEYWORDS).2
      (PyJson.arr [PyJson.null, PyJson.obj []])).mpr
      (Or.inl ⟨[PyJson.null, PyJson.obj []], rfl, by
        intro item hitem
        have h : item = PyJson.obj [] := by simpa using hitem
        exact ⟨[], h⟩⟩)⟩
